import Mathlib

/-!
Verification of the `cstring-array` crate: a shallow embedding of
`CStringArray` (src/src/array.rs), its error type (src/src/error.rs) and its
trait glue (src/src/traits.rs), together with proofs of the specified
properties.

Memory model: heap addresses are natural numbers, `0` is the null address.
Allocation is modelled by an explicit allocator state `Alloc` that hands out
strictly increasing fresh addresses; a well-formed allocator never hands out
the null address.  A Rust `CString` is its content byte sequence (without the
trailing terminator, which is implied) together with the address of the first
byte of its heap buffer.  Machine pointers (`*const c_char`) are the addresses
themselves.
-/

/-- Allocator state: `next` is the next fresh heap address to hand out. -/
structure Alloc where
  next : Nat
deriving DecidableEq

/-- An allocator is well-formed when it never hands out the null address 0. -/
def Alloc.WF (σ : Alloc) : Prop := 0 < σ.next

instance (σ : Alloc) : Decidable σ.WF := by unfold Alloc.WF; infer_instance

/-- Allocate one fresh heap address. -/
def Alloc.fresh (σ : Alloc) : Nat × Alloc := (σ.next, ⟨σ.next + 1⟩)

/-- Rust `std::ffi::CString`: the content bytes (terminator excluded; the type
invariant of `CString` guarantees no interior `0` byte and exactly one
trailing terminator) plus the address of the first byte of its heap buffer.
Rust equality on `CString` compares the byte content only, never the
address — see `CString.rustEq`. -/
structure CString where
  bytes : List Nat
  addr : Nat
deriving DecidableEq

/-- Rust `PartialEq` for `CString`: content comparison (the derived equality
on the inner boxed byte slice), independent of buffer addresses. -/
def CString.rustEq (x y : CString) : Bool := x.bytes == y.bytes

/-- Error type from src/src/error.rs: `NulError` wraps `std::ffi::NulError`,
of which the observable datum is `nul_position()`, the byte offset of the
first interior null byte in the offending string; `EmptyArray` signals an
empty input. -/
inductive CStringArrayError where
  | NulError (position : Nat)
  | EmptyArray
deriving DecidableEq

/-- Byte offset of the first `0` byte of a byte string, if any: the interior
null scan performed by `CString::new` (the position reported by
`NulError::nul_position`). -/
def firstNul? : List Nat → Option Nat
  | [] => none
  | b :: rest => if b == 0 then some 0 else (firstNul? rest).map (· + 1)

/-- Rust `CString::new(bytes)`: fails with the position of the first interior
null byte if there is one, otherwise allocates a buffer for the bytes plus
terminator and returns the new `CString`. -/
def cstringNew (bytes : List Nat) (σ : Alloc) :
    Except CStringArrayError (CString × Alloc) :=
  match firstNul? bytes with
  | some p => .error (.NulError p)
  | none =>
    let (a, σ') := σ.fresh
    .ok (⟨bytes, a⟩, σ')

/-- The `strings.into_iter().map(CString::new).collect::<Result<_, _>>()`
step of `CStringArray::new`: converts each string in order, stopping at (and
returning) the first error; on success no partial data remains observable. -/
def mapCStringNew : List (List Nat) → Alloc →
    Except CStringArrayError (List CString × Alloc)
  | [], σ => .ok ([], σ)
  | s :: rest, σ =>
    match cstringNew s σ with
    | .error e => .error e
    | .ok (c, σ') =>
      match mapCStringNew rest σ' with
      | .error e => .error e
      | .ok (cs, σ'') => .ok (c :: cs, σ'')

/-- The structure from src/src/array.rs: owned `strings` plus the derived
pointer table.  `pointersBuf` is the address of the heap buffer backing the
`pointers` vector (allocated once by `Vec::with_capacity`), which is what
`as_ptr`/`as_mut_ptr` return; `pointers` is the table's contents. -/
structure CStringArray where
  strings : List CString
  pointersBuf : Nat
  pointers : List Nat
deriving DecidableEq

/-- `CStringArray::new` (src/src/array.rs lines 73-91): rejects empty input,
converts every string via `CString::new` (first error wins), then allocates
the pointer vector, fills it with each string's buffer address and appends
the null sentinel. -/
def CStringArray.new (strings : List (List Nat)) (σ : Alloc) :
    Except CStringArrayError (CStringArray × Alloc) :=
  if strings.isEmpty then .error .EmptyArray
  else
    match mapCStringNew strings σ with
    | .error e => .error e
    | .ok (cstrings, σ₁) =>
      let (pb, σ₂) := σ₁.fresh
      .ok (⟨cstrings, pb, cstrings.map CString.addr ++ [0]⟩, σ₂)

/-- `CStringArray::from_cstrings` (src/src/array.rs lines 120-133): rejects
empty input, takes ownership of the given `CString`s unchanged (their buffers
were allocated by the caller), allocates the pointer vector and fills it with
each string's buffer address plus the null sentinel. -/
def CStringArray.from_cstrings (strings : List CString) (σ : Alloc) :
    Except CStringArrayError (CStringArray × Alloc) :=
  if strings.isEmpty then .error .EmptyArray
  else
    let (pb, σ₁) := σ.fresh
    .ok (⟨strings, pb, strings.map CString.addr ++ [0]⟩, σ₁)

/-- `CStringArray::as_ptr` (src/src/array.rs lines 162-164): the address of
the first element of the pointer vector, i.e. its buffer address. -/
def CStringArray.as_ptr (a : CStringArray) : Nat := a.pointersBuf

/-- `CStringArray::len` (src/src/array.rs lines 205-207): number of owned
strings, the null sentinel not counted. -/
def CStringArray.len (a : CStringArray) : Nat := a.strings.length

/-- `CStringArray::is_empty` (src/src/array.rs lines 225-227). -/
def CStringArray.is_empty (a : CStringArray) : Bool := a.strings.isEmpty

/-- `CStringArray::get` (src/src/array.rs lines 251-253): `Some` of the
string at `index` when in range, `None` otherwise. -/
def CStringArray.get (a : CStringArray) (index : Nat) : Option CString :=
  a.strings[index]?

/-- Modelled from the spec: `CStringArray::as_slice` is called by the trait
glue (src/src/traits.rs) but its definition is not among the given sources.
Per the spec, equality, hashing, indexing and conversions are implemented
"purely in terms of the owned-strings view", so `as_slice` is the sequence
of owned strings. -/
def CStringArray.as_slice (a : CStringArray) : List CString := a.strings

/-- Modelled from the spec: `CStringArray::into_strings` is called by the
owned `IntoIterator` (src/src/traits.rs lines 200-202) but its definition is
not among the given sources.  Per the spec's round-trip property, consuming
the array yields exactly its owned strings, in order. -/
def CStringArray.into_strings (a : CStringArray) : List CString := a.strings

/-- Owned iteration (`impl IntoIterator for CStringArray`, src/src/traits.rs
lines 196-203): yields `into_strings().into_iter()`, i.e. the owned strings
in positional order. -/
def CStringArray.intoIterList (a : CStringArray) : List CString :=
  a.into_strings

/-- Elementwise slice equality under Rust `CString` equality: what
`self.as_slice() == other.as_slice()` computes. -/
def sliceRustEq : List CString → List CString → Bool
  | [], [] => true
  | x :: xs, y :: ys => CString.rustEq x y && sliceRustEq xs ys
  | _, _ => false

/-- `impl PartialEq for CStringArray` (src/src/traits.rs lines 154-158):
compares the owned byte-string sequences, not the pointer values. -/
def CStringArray.rustEq (a b : CStringArray) : Bool :=
  sliceRustEq a.as_slice b.as_slice

/-- Result of an operation that may panic at runtime (Rust `panic!` via
`expect` or out-of-bounds slice indexing) instead of returning. -/
inductive PanicOr (α : Type) where
  | panicked (msg : String)
  | ok (val : α)
deriving DecidableEq

/-- Cloning a `Vec<CString>` (the `self.as_slice().to_vec()` step of `Clone`):
each `CString` is deep-copied into a freshly allocated buffer; the byte
contents are preserved, the addresses are new. -/
def cstringCloneList : List CString → Alloc → List CString × Alloc
  | [], σ => ([], σ)
  | c :: cs, σ =>
    let (a, σ') := σ.fresh
    let (rest, σ'') := cstringCloneList cs σ'
    (⟨c.bytes, a⟩ :: rest, σ'')

/-- `impl Clone for CStringArray` (src/src/traits.rs lines 172-176):
`Self::from_cstrings(self.as_slice().to_vec()).expect("clone from non-empty array")`. -/
def CStringArray.cloneImpl (a : CStringArray) (σ : Alloc) :
    PanicOr (CStringArray × Alloc) :=
  let (copies, σ') := cstringCloneList a.as_slice σ
  match CStringArray.from_cstrings copies σ' with
  | .ok r => .ok r
  | .error _ => .panicked "clone from non-empty array"

/-- `impl Index<usize> for CStringArray` (src/src/traits.rs lines 218-224):
`&self.as_slice()[index]` — slice indexing, which panics when the index is
out of range. -/
def CStringArray.indexOp (a : CStringArray) (index : Nat) : PanicOr CString :=
  match a.as_slice[index]? with
  | some c => .ok c
  | none => .panicked "index out of bounds"

/-- `impl FromIterator<String> for CStringArray` (src/src/traits.rs lines
182-187): collects the items and calls
`Self::new(strings).expect("FromIterator from non-empty iterator")`. -/
def CStringArray.fromIterStrings (items : List (List Nat)) (σ : Alloc) :
    PanicOr (CStringArray × Alloc) :=
  match CStringArray.new items σ with
  | .ok r => .ok r
  | .error _ => .panicked "FromIterator from non-empty iterator"

/-- `impl FromIterator<CString> for CStringArray` (src/src/traits.rs lines
189-194): collects the items and calls
`Self::from_cstrings(strings).expect("FromIterator from non-empty iterator")`. -/
def CStringArray.fromIterCStrings (items : List CString) (σ : Alloc) :
    PanicOr (CStringArray × Alloc) :=
  match CStringArray.from_cstrings items σ with
  | .ok r => .ok r
  | .error _ => .panicked "FromIterator from non-empty iterator"

/-- A Rust `Vec` as it sits in memory: the contents of its heap buffer and
its logical length (capacity slack is irrelevant here and omitted). -/
structure VecMem where
  buf : List Nat
  len : Nat
deriving DecidableEq

/-- `Vec::clear` on a `Vec<*const c_char>`: it drops the elements in place
and resets the logical length to 0; since raw pointers have no drop glue,
no write to the buffer memory occurs — the buffer contents are untouched. -/
def VecMem.clear (v : VecMem) : VecMem := ⟨v.buf, 0⟩

/-- Observable outcome of releasing a `CStringArray`. -/
structure ReleaseResult where
  stringsStorageReleased : Bool
  pointersStorageReleased : Bool
  pointerBufAtRelease : List Nat
deriving DecidableEq

/-- Releasing a `CStringArray`: `Drop::drop` (src/src/array.rs lines 272-276)
runs `self.pointers.clear()` on the pointer vector's memory, after which the
compiler-generated drop glue releases the storage of both the `strings`
vector and the `pointers` vector.  `pointerBufAtRelease` records the pointer
buffer's contents at the moment its storage is released. -/
def CStringArray.release (a : CStringArray) : ReleaseResult :=
  let pv := VecMem.clear ⟨a.pointers, a.pointers.length⟩
  { stringsStorageReleased := true
    pointersStorageReleased := true
    pointerBufAtRelease := pv.buf }

/-- The pointer-table invariant of claim C1: the table has one slot more than
there are strings; the slot at index `len` is the null address; every slot at
index `i < len` holds the (non-null) address of the first byte of the `i`-th
string's buffer.  In particular the sentinel slot is the only null slot. -/
def ArrayInv (a : CStringArray) : Prop :=
  a.pointers.length = a.len + 1 ∧
  a.pointers[a.len]? = some 0 ∧
  ∀ i, i < a.len →
    ∃ c, a.strings[i]? = some c ∧ a.pointers[i]? = some c.addr ∧ c.addr ≠ 0

/-! Helper lemmas about the embedded operations. -/

lemma firstNul?_eq_none_iff (s : List Nat) : firstNul? s = none ↔ 0 ∉ s := by
  induction s with
  | nil => simp [firstNul?]
  | cons b rest ih =>
    by_cases hb : b = 0
    · simp [firstNul?, hb]
    · simp [firstNul?, hb, Option.map_eq_none', ih, List.mem_cons]
      tauto

lemma firstNul?_first (s : List Nat) (p : Nat) (h : firstNul? s = some p) :
    s[p]? = some 0 ∧ ∀ q, q < p → s[q]? ≠ some 0 := by
  induction s generalizing p with
  | nil => simp [firstNul?] at h
  | cons b rest ih =>
    by_cases hb : b = 0
    · simp [firstNul?, hb] at h
      subst h
      simp [hb]
    · simp [firstNul?, hb, Option.map_eq_some'] at h
      obtain ⟨p', hp', rfl⟩ := h
      obtain ⟨h1, h2⟩ := ih p' hp'
      refine ⟨by simpa using h1, ?_⟩
      intro q hq
      cases q with
      | zero => simpa using hb
      | succ q' =>
        have := h2 q' (by omega)
        simpa using this

lemma firstNul?_mem (s : List Nat) (h : 0 ∈ s) : ∃ p, firstNul? s = some p := by
  cases hf : firstNul? s with
  | none => exact absurd ((firstNul?_eq_none_iff s).mp hf) (by simpa using h)
  | some p => exact ⟨p, rfl⟩

lemma mapCStringNew_ok (S : List (List Nat)) (σ : Alloc) (cs : List CString)
    (σ' : Alloc) (h : mapCStringNew S σ = .ok (cs, σ')) :
    cs.map CString.bytes = S ∧ σ.next ≤ σ'.next ∧
      ∀ c ∈ cs, σ.next ≤ c.addr ∧ c.addr < σ'.next := by
  induction S generalizing σ cs σ' with
  | nil =>
    simp [mapCStringNew] at h
    obtain ⟨rfl, rfl⟩ := h
    simp
  | cons s rest ih =>
    cases h1 : firstNul? s with
    | some p => simp [mapCStringNew, cstringNew, h1] at h
    | none =>
      cases h2 : mapCStringNew rest ⟨σ.next + 1⟩ with
      | error e => simp [mapCStringNew, cstringNew, h1, Alloc.fresh, h2] at h
      | ok r =>
        obtain ⟨cs', σ''⟩ := r
        simp [mapCStringNew, cstringNew, h1, Alloc.fresh, h2] at h
        obtain ⟨rfl, rfl⟩ := h
        obtain ⟨hbytes, hle, helem⟩ := ih ⟨σ.next + 1⟩ cs' _ h2
        refine ⟨by simp [hbytes], by simp at hle ⊢; omega, ?_⟩
        intro c hc
        rcases List.mem_cons.mp hc with rfl | hc'
        · simp at hle ⊢
          omega
        · have := helem c hc'
          simp at this ⊢
          omega

lemma mapCStringNew_nulFree (S : List (List Nat)) (σ : Alloc)
    (h : ∀ s ∈ S, 0 ∉ s) :
    ∃ cs σ', mapCStringNew S σ = .ok (cs, σ') := by
  induction S generalizing σ with
  | nil => exact ⟨[], σ, rfl⟩
  | cons s rest ih =>
    have h1 : firstNul? s = none :=
      (firstNul?_eq_none_iff s).mpr (h s (List.mem_cons_self s rest))
    obtain ⟨cs, σ', h2⟩ := ih ⟨σ.next + 1⟩ (fun t ht => h t (List.mem_cons_of_mem s ht))
    exact ⟨(⟨s, σ.next⟩ : CString) :: cs, σ',
      by simp [mapCStringNew, cstringNew, h1, Alloc.fresh, h2]⟩

lemma mapCStringNew_error_at (S : List (List Nat)) (σ : Alloc) (k : Nat)
    (sk : List Nat) (hk : S[k]? = some sk) (h0 : 0 ∈ sk)
    (hprev : ∀ j, j < k → 0 ∉ (S[j]?.getD [])) :
    ∃ p, mapCStringNew S σ = .error (.NulError p) ∧
      sk[p]? = some 0 ∧ ∀ q, q < p → sk[q]? ≠ some 0 := by
  induction S generalizing k σ with
  | nil => simp at hk
  | cons s rest ih =>
    cases k with
    | zero =>
      simp at hk
      subst hk
      obtain ⟨p, hp⟩ := firstNul?_mem _ h0
      obtain ⟨hfst, hmin⟩ := firstNul?_first _ p hp
      exact ⟨p, by simp [mapCStringNew, cstringNew, hp], hfst, hmin⟩
    | succ k' =>
      have hs : 0 ∉ s := by simpa using hprev 0 (Nat.succ_pos k')
      have h1 : firstNul? s = none := (firstNul?_eq_none_iff s).mpr hs
      obtain ⟨p, hmap, hfst, hmin⟩ :=
        ih ⟨σ.next + 1⟩ k' (by simpa using hk)
          (fun j hj => by simpa using hprev (j + 1) (by omega))
      exact ⟨p, by simp [mapCStringNew, cstringNew, h1, Alloc.fresh, hmap], hfst, hmin⟩

lemma cstringCloneList_spec (l : List CString) (σ : Alloc) :
    (cstringCloneList l σ).1.map CString.bytes = l.map CString.bytes ∧
      (cstringCloneList l σ).2.next = σ.next + l.length := by
  induction l generalizing σ with
  | nil => simp [cstringCloneList]
  | cons c cs ih =>
    obtain ⟨h1, h2⟩ := ih ⟨σ.next + 1⟩
    simp [cstringCloneList, Alloc.fresh, h1, h2]
    omega

lemma sliceRustEq_iff (xs ys : List CString) :
    sliceRustEq xs ys = true ↔ xs.map CString.bytes = ys.map CString.bytes := by
  induction xs generalizing ys with
  | nil => cases ys <;> simp [sliceRustEq]
  | cons x xs ih =>
    cases ys with
    | nil => simp [sliceRustEq]
    | cons y ys => simp [sliceRustEq, CString.rustEq, ih]

lemma new_ok_inv (S : List (List Nat)) (σ : Alloc) (a : CStringArray)
    (τ : Alloc) (h : CStringArray.new S σ = .ok (a, τ)) :
    S.isEmpty = false ∧ ∃ cs σ₁, mapCStringNew S σ = .ok (cs, σ₁) ∧
      a.strings = cs ∧ a.pointersBuf = σ₁.next ∧
      a.pointers = cs.map CString.addr ++ [0] ∧ τ = ⟨σ₁.next + 1⟩ := by
  cases hS : S.isEmpty with
  | true => simp [CStringArray.new, hS] at h
  | false =>
    cases hm : mapCStringNew S σ with
    | error e => simp [CStringArray.new, hS, hm] at h
    | ok r =>
      obtain ⟨cs, σ₁⟩ := r
      simp [CStringArray.new, hS, hm, Alloc.fresh] at h
      obtain ⟨rfl, rfl⟩ := h
      exact ⟨rfl, cs, σ₁, rfl, rfl, rfl, rfl, rfl⟩

lemma from_cstrings_ok_inv (v : List CString) (σ : Alloc) (a : CStringArray)
    (τ : Alloc) (h : CStringArray.from_cstrings v σ = .ok (a, τ)) :
    v.isEmpty = false ∧ a.strings = v ∧ a.pointersBuf = σ.next ∧
      a.pointers = v.map CString.addr ++ [0] ∧ τ = ⟨σ.next + 1⟩ := by
  cases hv : v.isEmpty with
  | true => simp [CStringArray.from_cstrings, hv] at h
  | false =>
    simp [CStringArray.from_cstrings, hv, Alloc.fresh] at h
    obtain ⟨rfl, rfl⟩ := h
    exact ⟨rfl, rfl, rfl, rfl, rfl⟩

lemma from_cstrings_ok_of_ne (v : List CString) (σ : Alloc)
    (hv : v.isEmpty = false) :
    CStringArray.from_cstrings v σ =
      .ok (⟨v, σ.next, v.map CString.addr ++ [0]⟩, ⟨σ.next + 1⟩) := by
  simp [CStringArray.from_cstrings, hv, Alloc.fresh]

lemma arrayInv_build (a : CStringArray)
    (hp : a.pointers = a.strings.map CString.addr ++ [0])
    (hnz : ∀ c ∈ a.strings, c.addr ≠ 0) : ArrayInv a := by
  refine ⟨by simp [hp, CStringArray.len], ?_, ?_⟩
  · have hlen : (a.strings.map CString.addr).length = a.len := by
      simp [CStringArray.len]
    rw [hp, ← hlen]
    exact List.getElem?_concat_length _ _
  · intro i hi
    have hi' : i < a.strings.length := hi
    refine ⟨a.strings[i], by simp [List.getElem?_eq_getElem hi'], ?_, ?_⟩
    · rw [hp, List.getElem?_append_left (by simpa using hi'), List.getElem?_map]
      simp [List.getElem?_eq_getElem hi']
    · exact hnz _ (List.getElem_mem hi')


instance {ε α : Type} [DecidableEq ε] [DecidableEq α] :
    DecidableEq (Except ε α) := fun a b =>
  match a, b with
  | .error e, .error f =>
    if h : e = f then .isTrue (by rw [h]) else .isFalse (by simp [h])
  | .ok x, .ok y =>
    if h : x = y then .isTrue (by rw [h]) else .isFalse (by simp [h])
  | .error _, .ok _ => .isFalse (by simp)
  | .ok _, .error _ => .isFalse (by simp)

/-! The claims. -/

/-- C1: for every array successfully built by `new` or `from_cstrings`, the
pointer table has length `len(strings) + 1`, the slot at index `len` is the
null address and is the only null slot, and each slot `i < len` holds the
address of the first byte of the `i`-th string's buffer.  The array is
immutable after construction (no embedded operation modifies it), so the
invariant holds at every externally observable point of its lifetime.  For
the zero-copy path the input strings' buffers were allocated by the caller,
hence the hypothesis that their addresses are non-null, which every real
`CString` satisfies. -/
theorem claim_C1_pointer_invariants (S : List (List Nat)) (v : List CString)
    (σ : Alloc) (a a' : CStringArray) (τ τ' : Alloc) (hσ : σ.WF) :
    (CStringArray.new S σ = .ok (a, τ) → ArrayInv a) ∧
    ((∀ c ∈ v, c.addr ≠ 0) →
      CStringArray.from_cstrings v σ = .ok (a', τ') → ArrayInv a') := by
  constructor
  · intro h
    obtain ⟨hne, cs, σ₁, hm, hstr, hpb, hptr, hτ⟩ := new_ok_inv S σ a τ h
    obtain ⟨hbytes, hle, helem⟩ := mapCStringNew_ok S σ cs σ₁ hm
    apply arrayInv_build
    · rw [hptr, hstr]
    · intro c hc
      rw [hstr] at hc
      obtain ⟨h1, h2⟩ := helem c hc
      have h3 : 0 < σ.next := hσ
      omega
  · intro hnz h
    obtain ⟨hne, hstr, hpb, hptr, hτ⟩ := from_cstrings_ok_inv v σ a' τ' h
    apply arrayInv_build
    · rw [hptr, hstr]
    · intro c hc
      rw [hstr] at hc
      exact hnz c hc

/-- Witness for C1 at concrete inputs. -/
theorem claim_C1_witness :
    ArrayInv ⟨[⟨[104, 105], 1⟩], 2, [1, 0]⟩ ∧
    ArrayInv ⟨[⟨[104], 5⟩], 1, [5, 0]⟩ :=
  ⟨(claim_C1_pointer_invariants [[104, 105]] [] ⟨1⟩
      ⟨[⟨[104, 105], 1⟩], 2, [1, 0]⟩ ⟨[⟨[104, 105], 1⟩], 2, [1, 0]⟩
      ⟨3⟩ ⟨3⟩ (by decide)).1 (by decide),
   (claim_C1_pointer_invariants [] [⟨[104], 5⟩] ⟨1⟩
      ⟨[⟨[104], 5⟩], 1, [5, 0]⟩ ⟨[⟨[104], 5⟩], 1, [5, 0]⟩
      ⟨2⟩ ⟨2⟩ (by decide)).2 (by decide) (by decide)⟩

/-- C2: both constructors reject the empty input with `EmptyArray` (the
spec's `EmptyInput`), constructing nothing, and every array either
constructor returns has at least one element. -/
theorem claim_C2_empty_input (S : List (List Nat)) (v : List CString)
    (σ : Alloc) (a a' : CStringArray) (τ τ' : Alloc) :
    CStringArray.new [] σ = .error .EmptyArray ∧
    CStringArray.from_cstrings [] σ = .error .EmptyArray ∧
    (CStringArray.new S σ = .ok (a, τ) → 0 < a.len) ∧
    (CStringArray.from_cstrings v σ = .ok (a', τ') → 0 < a'.len) := by
  refine ⟨rfl, rfl, ?_, ?_⟩
  · intro h
    obtain ⟨hne, cs, σ₁, hm, hstr, -, -, -⟩ := new_ok_inv S σ a τ h
    obtain ⟨hbytes, -, -⟩ := mapCStringNew_ok S σ cs σ₁ hm
    have hlen : cs.length = S.length := by
      have := congrArg List.length hbytes
      simpa using this
    have hSne : S ≠ [] := by simpa [List.isEmpty_iff] using hne
    have : 0 < S.length := List.length_pos.mpr hSne
    simp [CStringArray.len, hstr]
    omega
  · intro h
    obtain ⟨hne, hstr, -, -, -⟩ := from_cstrings_ok_inv v σ a' τ' h
    have hvne : v ≠ [] := by simpa [List.isEmpty_iff] using hne
    simp [CStringArray.len, hstr]
    exact List.length_pos.mpr hvne

/-- Witness for C2 at concrete inputs. -/
theorem claim_C2_witness :
    CStringArray.new [] ⟨1⟩ = .error .EmptyArray ∧
    CStringArray.from_cstrings [] ⟨1⟩ = .error .EmptyArray ∧
    0 < (⟨[⟨[104, 105], 1⟩], 2, [1, 0]⟩ : CStringArray).len ∧
    0 < (⟨[⟨[104], 5⟩], 1, [5, 0]⟩ : CStringArray).len := by
  obtain ⟨h1, h2, h3, h4⟩ := claim_C2_empty_input [[104, 105]] [⟨[104], 5⟩] ⟨1⟩
    ⟨[⟨[104, 105], 1⟩], 2, [1, 0]⟩ ⟨[⟨[104], 5⟩], 1, [5, 0]⟩ ⟨3⟩ ⟨2⟩
  exact ⟨h1, h2, h3 (by decide), h4 (by decide)⟩

/-- C3: if the `k`-th input string is the first one containing a `0` byte,
the validating constructor fails with `NulError p` where `p` is the offset of
the first `0` byte within that string (not an offset over the whole batch);
the error result carries no partial array, so nothing is constructed and no
earlier conversion is retained. -/
theorem claim_C3_embedded_nul (S : List (List Nat)) (σ : Alloc) (k : Nat)
    (sk : List Nat) (hk : S[k]? = some sk) (h0 : 0 ∈ sk)
    (hprev : ∀ j, j < k → 0 ∉ (S[j]?.getD [])) :
    ∃ p, CStringArray.new S σ = .error (.NulError p) ∧
      sk[p]? = some 0 ∧ ∀ q, q < p → sk[q]? ≠ some 0 := by
  obtain ⟨p, hmap, hfst, hmin⟩ := mapCStringNew_error_at S σ k sk hk h0 hprev
  have hkl : k < S.length := by
    by_contra hge
    simp [List.getElem?_eq_none (by omega : S.length ≤ k)] at hk
  have hne : S.isEmpty = false := by
    cases S with
    | nil => simp at hkl
    | cons s rest => rfl
  exact ⟨p, by simp [CStringArray.new, hne, hmap], hfst, hmin⟩

/-- Witness for C3: the spec's example, input `["hello", "wo\x00rld"]`, fails
with position 2, the offset of the terminator within the second string. -/
theorem claim_C3_witness :
    (∃ p, CStringArray.new [[104, 101, 108, 108, 111], [119, 111, 0, 114, 108, 100]] ⟨1⟩ =
        .error (.NulError p) ∧
      [119, 111, 0, 114, 108, 100][p]? = some 0 ∧
      ∀ q, q < p → [119, 111, 0, 114, 108, 100][q]? ≠ some 0) ∧
    CStringArray.new [[104, 101, 108, 108, 111], [119, 111, 0, 114, 108, 100]] ⟨1⟩ =
      .error (.NulError 2) :=
  ⟨claim_C3_embedded_nul [[104, 101, 108, 108, 111], [119, 111, 0, 114, 108, 100]] ⟨1⟩ 1
    [119, 111, 0, 114, 108, 100] (by decide) (by decide) (by decide),
   by decide⟩

/-- C4: for every non-empty input sequence of terminator-free strings, the
validating constructor succeeds and `len` returns the input length (the null
sentinel is not counted: `len` counts the owned strings only). -/
theorem claim_C4_new_length (S : List (List Nat)) (σ : Alloc)
    (hne : S ≠ []) (hnul : ∀ s ∈ S, 0 ∉ s) :
    ∃ a τ, CStringArray.new S σ = .ok (a, τ) ∧ a.len = S.length := by
  obtain ⟨cs, σ₁, hm⟩ := mapCStringNew_nulFree S σ hnul
  obtain ⟨hbytes, -, -⟩ := mapCStringNew_ok S σ cs σ₁ hm
  have hS : S.isEmpty = false := by simpa [List.isEmpty_iff] using hne
  refine ⟨⟨cs, σ₁.next, cs.map CString.addr ++ [0]⟩, ⟨σ₁.next + 1⟩,
    by simp [CStringArray.new, hS, hm, Alloc.fresh], ?_⟩
  have := congrArg List.length hbytes
  simpa [CStringArray.len] using this

/-- Witness for C4 at a concrete input. -/
theorem claim_C4_witness :
    ∃ a τ, CStringArray.new [[104, 105], [119]] ⟨1⟩ = .ok (a, τ) ∧
      a.len = 2 :=
  claim_C4_new_length [[104, 105], [119]] ⟨1⟩ (by decide) (by decide)

/-- C5: for every array and index, `get` returns `Some` of the `i`-th owned
string when `i < len` and `None` when `i ≥ len`; it is total, so it never
fails or panics. -/
theorem claim_C5_get (a : CStringArray) (i : Nat) :
    (∀ h : i < a.len, a.get i = some (a.strings.get ⟨i, h⟩)) ∧
    (a.len ≤ i → a.get i = none) := by
  constructor
  · intro h
    simp [CStringArray.get, List.getElem?_eq_getElem h]
  · intro h
    simp [CStringArray.get, List.getElem?_eq_none h]

/-- Witness for C5: the spec's example, the array built from
`["first", "second"]`: index 0 yields `"first"`, index 1 yields `"second"`,
index 2 yields `None`. -/
theorem claim_C5_witness :
    (⟨[⟨[102, 105, 114, 115, 116], 1⟩, ⟨[115, 101, 99, 111, 110, 100], 2⟩],
        3, [1, 2, 0]⟩ : CStringArray).get 0 =
      some ⟨[102, 105, 114, 115, 116], 1⟩ ∧
    (⟨[⟨[102, 105, 114, 115, 116], 1⟩, ⟨[115, 101, 99, 111, 110, 100], 2⟩],
        3, [1, 2, 0]⟩ : CStringArray).get 1 =
      some ⟨[115, 101, 99, 111, 110, 100], 2⟩ ∧
    (⟨[⟨[102, 105, 114, 115, 116], 1⟩, ⟨[115, 101, 99, 111, 110, 100], 2⟩],
        3, [1, 2, 0]⟩ : CStringArray).get 2 = none :=
  ⟨(claim_C5_get _ 0).1 (by decide), (claim_C5_get _ 1).1 (by decide),
   (claim_C5_get _ 2).2 (by decide)⟩

/-- C6: for every non-empty vector of `CString`s the zero-copy constructor
succeeds, taking ownership of the input unchanged and in order, and consuming
the array (`into_strings`, also the owned `IntoIterator`) yields exactly that
input sequence back. -/
theorem claim_C6_zero_copy_roundtrip (v : List CString) (σ : Alloc)
    (hne : v ≠ []) :
    ∃ a τ, CStringArray.from_cstrings v σ = .ok (a, τ) ∧
      a.strings = v ∧ a.into_strings = v ∧ a.intoIterList = v := by
  have hv : v.isEmpty = false := by simpa [List.isEmpty_iff] using hne
  exact ⟨⟨v, σ.next, v.map CString.addr ++ [0]⟩, ⟨σ.next + 1⟩,
    from_cstrings_ok_of_ne v σ hv, rfl, rfl, rfl⟩

/-- Witness for C6 at a concrete input. -/
theorem claim_C6_witness :
    ∃ a τ, CStringArray.from_cstrings [⟨[104], 5⟩, ⟨[105], 9⟩] ⟨1⟩ =
        .ok (a, τ) ∧
      a.strings = [⟨[104], 5⟩, ⟨[105], 9⟩] ∧
      a.into_strings = [⟨[104], 5⟩, ⟨[105], 9⟩] ∧
      a.intoIterList = [⟨[104], 5⟩, ⟨[105], 9⟩] :=
  claim_C6_zero_copy_roundtrip [⟨[104], 5⟩, ⟨[105], 9⟩] ⟨1⟩ (by decide)

/-- The array `a` was built, by either constructor, from an input sequence
with byte contents `B`: either the validating constructor was given exactly
the text values `B`, or the zero-copy constructor was given `CString`s whose
byte contents are `B` (Rust equality of `CString` input sequences is exactly
equality of their byte contents, the buffer addresses being irrelevant). -/
def BuiltFrom (a : CStringArray) (B : List (List Nat)) : Prop :=
  (∃ σ τ, CStringArray.new B σ = .ok (a, τ)) ∨
  (∃ v σ τ, v.map CString.bytes = B ∧
    CStringArray.from_cstrings v σ = .ok (a, τ))

lemma builtFrom_bytes (a : CStringArray) (B : List (List Nat))
    (h : BuiltFrom a B) :
    a.strings.map CString.bytes = B ∧ a.strings ≠ [] := by
  rcases h with ⟨σ, τ, hnew⟩ | ⟨v, σ, τ, hmap, hfc⟩
  · obtain ⟨hne, cs, σ₁, hm, hstr, -, -, -⟩ := new_ok_inv B σ a τ hnew
    obtain ⟨hbytes, -, -⟩ := mapCStringNew_ok B σ cs σ₁ hm
    refine ⟨by rw [hstr, hbytes], ?_⟩
    rw [hstr]
    intro hnil
    rw [hnil] at hbytes
    rw [← hbytes] at hne
    simp at hne
  · obtain ⟨hne, hstr, -, -, -⟩ := from_cstrings_ok_inv v σ a τ hfc
    refine ⟨by rw [hstr, hmap], ?_⟩
    rw [hstr]
    simpa [List.isEmpty_iff] using hne

/-- C7: any two arrays built (by either constructor) from input sequences of
equal content compare equal under the Rust equality, which compares the owned
byte-string sequences and not the pointer values (the constructions may use
different allocator states and caller-chosen buffer addresses, so the pointer
tables may differ arbitrarily); and the clone of any constructed array
compares equal to the original while its raw-pointer accessor returns a
different address.  The freshness hypothesis says the allocator state used by
the clone postdates the allocation of the original's pointer buffer, which
holds of every allocator state reachable after the original's
construction. -/
theorem claim_C7_eq_clone (B : List (List Nat)) (a b : CStringArray)
    (σ : Alloc) (hA : BuiltFrom a B) (hB : BuiltFrom b B)
    (hfresh : a.as_ptr < σ.next) :
    CStringArray.rustEq a b = true ∧
    ∃ c τ, a.cloneImpl σ = .ok (c, τ) ∧
      CStringArray.rustEq c a = true ∧ c.as_ptr ≠ a.as_ptr := by
  obtain ⟨hab, hane⟩ := builtFrom_bytes a B hA
  obtain ⟨hbb, -⟩ := builtFrom_bytes b B hB
  constructor
  · rw [CStringArray.rustEq, sliceRustEq_iff]
    simp [CStringArray.as_slice, hab, hbb]
  · rcases hcl : cstringCloneList a.as_slice σ with ⟨copies, σc⟩
    have hkey := cstringCloneList_spec a.as_slice σ
    rw [hcl] at hkey
    dsimp only at hkey
    obtain ⟨hcb, hcn⟩ := hkey
    have hcoplen : copies.length = a.strings.length := by
      have h1 := congrArg List.length hcb
      simpa [CStringArray.as_slice] using h1
    have hcopne : copies.isEmpty = false := by
      cases copies with
      | nil =>
        exfalso
        apply hane
        have hz : a.strings.length = 0 := by simpa using hcoplen.symm
        exact List.length_eq_zero.mp hz
      | cons c cs => rfl
    have hfc := from_cstrings_ok_of_ne copies σc hcopne
    refine ⟨⟨copies, σc.next, copies.map CString.addr ++ [0]⟩, ⟨σc.next + 1⟩,
      ?_, ?_, ?_⟩
    · simp [CStringArray.cloneImpl, hcl, hfc]
    · rw [CStringArray.rustEq, sliceRustEq_iff]
      simpa [CStringArray.as_slice] using hcb
    · simp [CStringArray.as_ptr] at hfresh ⊢
      omega

/-- Witness for C7 at concrete inputs: one array built by the validating
constructor, the other by the zero-copy constructor from a `CString` with the
same content at a different address. -/
theorem claim_C7_witness :
    CStringArray.rustEq ⟨[⟨[104], 1⟩], 2, [1, 0]⟩ ⟨[⟨[104], 10⟩], 5, [10, 0]⟩ = true ∧
    ∃ c τ, CStringArray.cloneImpl ⟨[⟨[104], 1⟩], 2, [1, 0]⟩ ⟨3⟩ = .ok (c, τ) ∧
      CStringArray.rustEq c ⟨[⟨[104], 1⟩], 2, [1, 0]⟩ = true ∧
      c.as_ptr ≠ (⟨[⟨[104], 1⟩], 2, [1, 0]⟩ : CStringArray).as_ptr :=
  claim_C7_eq_clone [[104]] ⟨[⟨[104], 1⟩], 2, [1, 0]⟩ ⟨[⟨[104], 10⟩], 5, [10, 0]⟩ ⟨3⟩
    (Or.inl ⟨⟨1⟩, ⟨3⟩, by decide⟩)
    (Or.inr ⟨[⟨[104], 10⟩], ⟨5⟩, ⟨6⟩, by decide, by decide⟩)
    (by decide)

/-- C8: releasing an array releases the storage of both the strings vector
and the pointers vector, and the user-written `Drop::drop` only runs
`Vec::clear` on the pointer vector, which (the elements being raw pointers,
with no drop glue) performs no write to the buffer: the pointer table's
contents at the moment of release equal the table's contents during the
array's life — nothing is zeroed or poisoned. -/
theorem claim_C8_release_frame (a : CStringArray) :
    (a.release).stringsStorageReleased = true ∧
    (a.release).pointersStorageReleased = true ∧
    (a.release).pointerBufAtRelease = a.pointers :=
  ⟨rfl, rfl, rfl⟩

/-- C9: the index operator with an out-of-range index panics, while `get`
returns `None` (not-found, not a fault) for the same index. -/
theorem claim_C9_index_oob (a : CStringArray) (i : Nat) (h : a.len ≤ i) :
    a.indexOp i = .panicked "index out of bounds" ∧ a.get i = none := by
  have hnone : a.strings[i]? = none := List.getElem?_eq_none h
  exact ⟨by simp [CStringArray.indexOp, CStringArray.as_slice, hnone],
    by simp [CStringArray.get, hnone]⟩

/-- Witness for C9 at a concrete input. -/
theorem claim_C9_witness :
    (⟨[⟨[104], 1⟩], 2, [1, 0]⟩ : CStringArray).indexOp 10 =
      .panicked "index out of bounds" ∧
    (⟨[⟨[104], 1⟩], 2, [1, 0]⟩ : CStringArray).get 10 = none :=
  claim_C9_index_oob ⟨[⟨[104], 1⟩], 2, [1, 0]⟩ 10 (by decide)

/-- C10: collecting an empty iterator through either `FromIterator`
implementation panics (the `expect` on the constructor's result) instead of
returning the `EmptyArray` error: the return type of `from_iter` has no
error channel at all, so the non-emptiness precondition is enforced only by
this runtime assertion. -/
theorem claim_C10_fromiter_empty_panics (σ : Alloc) :
    CStringArray.fromIterStrings [] σ =
      .panicked "FromIterator from non-empty iterator" ∧
    CStringArray.fromIterCStrings [] σ =
      .panicked "FromIterator from non-empty iterator" :=
  ⟨rfl, rfl⟩
